import Mathlib

/-!
Verification of the prompt-similarity scoring engine of MicroModel
(`createSimilarityScoreBetweenPrompts` and its helpers).

The TypeScript source is embedded shallowly:
* strings are `String` (processed as their `List Char` data; the model covers
  the ASCII behaviour of the JS regexes: `\w` is `[A-Za-z0-9_]`, `\s` is the
  ASCII whitespace characters, `toLowerCase` is ASCII lowercasing, and line
  terminators are `'\n'`/`'\r'`);
* JS numbers are modelled by exact arithmetic: `ℚ` where the source only
  forms ratios, `ℝ` where `Math.sqrt` appears; `Math.round x` is `⌊x + 1/2⌋`;
* each regex of `calculateStructuralSimilarity` is embedded as a counting
  function implementing the JS global-match semantics (leftmost match,
  lazy quantifiers, advance past each match, advance one position on
  failure).
-/

namespace MicroModel

/-- ASCII model of JS `toLowerCase` (the engine's inputs of interest are
ASCII; outside `A`-`Z` the character is returned unchanged). -/
def jsToLower (c : Char) : Char := c.toLower

/-- ASCII model of the JS regex class `\s` (whitespace). -/
def jsIsSpace (c : Char) : Bool :=
  c = ' ' || c = '\t' || c = '\n' || c = '\r' || c = '\x0b' || c = '\x0c'

/-- The JS regex class `\w`: letters, digits and underscore. -/
def jsIsWordChar (c : Char) : Bool := c.isAlpha || c.isDigit || c = '_'

/-- One character of `.replace(/[^\w\s]/g, ' ')`: characters outside `\w`
and `\s` become a space, all others are kept. -/
def jsReplaceChar (c : Char) : Char := if jsIsWordChar c || jsIsSpace c then c else ' '

/-- The `.replace(/\s+/g, ' ')` step: every maximal run of whitespace
becomes a single `' '`.  The `Bool` argument records whether the previous
character belonged to a whitespace run. -/
def collapseAux : Bool → List Char → List Char
  | _, [] => []
  | prevSpace, c :: cs =>
    if jsIsSpace c then
      if prevSpace then collapseAux true cs else ' ' :: collapseAux true cs
    else c :: collapseAux false cs

/-- JS `String.prototype.trim`: drop leading and trailing whitespace. -/
def jsTrim (l : List Char) : List Char :=
  ((l.dropWhile jsIsSpace).reverse.dropWhile jsIsSpace).reverse

/-- JS `.split(' ')`: split on single space characters, keeping empty
fragments (in particular `"".split(' ')` is `[""]`). -/
def splitAux (cur : List Char) : List Char → List (List Char)
  | [] => [cur.reverse]
  | c :: cs => if c = ' ' then cur.reverse :: splitAux [] cs else splitAux (c :: cur) cs

/-- The stop-word table of `isStopWord`, verbatim from the source (the JS
`Set` constructor removes the duplicated entries, which does not affect
membership). -/
def stopWordsList : List String :=
  ["the", "and", "or", "but", "in", "on", "at", "to", "for", "of", "with",
   "by", "from", "as", "is", "are", "was", "were", "be", "been", "being",
   "have", "has", "had", "do", "does", "did", "will", "would", "could",
   "should", "may", "might", "must", "can", "shall", "this", "that",
   "these", "those", "your", "you", "all", "any", "each", "few", "more",
   "most", "other", "some", "such", "only", "own", "same", "so", "than",
   "too", "very", "can", "just", "should", "now"]

/-- `isStopWord`: membership of the lower-cased word in the stop-word set. -/
def isStopWord (word : String) : Bool :=
  stopWordsList.contains (String.mk (word.data.map jsToLower))

/-- `normalizePrompt` on the character data: lower-case, replace
`[^\w\s]` by spaces, collapse whitespace, trim, split on `' '`, keep words
longer than two characters, drop stop words. -/
def normalizeData (l : List Char) : List String :=
  ((((splitAux [] (jsTrim (collapseAux false ((l.map jsToLower).map jsReplaceChar)))).map
      (fun w => String.mk w)).filter (fun w => decide (2 < w.length))).filter
    (fun w => !isStopWord w))

/-- The source's `normalizePrompt`. -/
def normalizePrompt (s : String) : List String := normalizeData s.data

/-- The source's `calculateJaccardSimilarity`: intersection size over union
size of the deduplicated word lists, `0` when the union is empty. -/
def calculateJaccardSimilarity (words1 words2 : List String) : ℚ :=
  let set1 := words1.dedup
  let set2 := words2.dedup
  let intersection := (set1.filter (fun w => set2.contains w)).dedup
  let union := (set1 ++ set2).dedup
  if union.length = 0 then 0 else (intersection.length : ℚ) / (union.length : ℚ)

/-- The count `words.filter(w => w === word).length` used to build the
term-frequency vectors. -/
def wordCount (ws : List String) (word : String) : ℕ :=
  (ws.filter (fun w => w == word)).length

open scoped Classical in
/-- The source's `calculateCosineSimilarity`: term-frequency vectors over
the shared vocabulary, dot product over the product of the Euclidean
magnitudes, `0` when either magnitude is zero. -/
noncomputable def calculateCosineSimilarity (words1 words2 : List String) : ℝ :=
  let allWords := (words1 ++ words2).dedup
  let vector1 := allWords.map (fun word => wordCount words1 word)
  let vector2 := allWords.map (fun word => wordCount words2 word)
  let dotProduct := (List.zipWith (fun a b => a * b) vector1 vector2).sum
  let magnitude1 := Real.sqrt (((vector1.map (fun v => v * v)).sum : ℕ) : ℝ)
  let magnitude2 := Real.sqrt (((vector2.map (fun v => v * v)).sum : ℕ) : ℝ)
  if magnitude1 = 0 ∨ magnitude2 = 0 then 0 else (dotProduct : ℝ) / (magnitude1 * magnitude2)

/-- A character terminating a line for the JS `m`-flag anchors and for `.`
(`'\n'` or `'\r'`; the astral separators are outside the ASCII model). -/
def lineTerm (c : Char) : Bool := c = '\n' || c = '\r'

/-- Split into lines at line terminators, keeping empty lines. -/
def splitLinesAux (cur : List Char) : List Char → List (List Char)
  | [] => [cur.reverse]
  | c :: cs => if lineTerm c then cur.reverse :: splitLinesAux [] cs else splitLinesAux (c :: cur) cs

/-- All lines of a string. -/
def splitLines (l : List Char) : List (List Char) := splitLinesAux [] l

/-- Whether a line contains `"##"`. -/
def hasDoubleHash : List Char → Bool
  | [] => false
  | [_] => false
  | c1 :: c2 :: rest =>
    if c1 = '#' && c2 = '#' then true else hasDoubleHash (c2 :: rest)

/-- Match count of `/##.*$/gm`: one match per line containing `"##"` (the
greedy `.*$` consumes the rest of the line, so each such line yields
exactly one match). -/
def countHeaders (l : List Char) : ℕ := ((splitLines l).filter hasDoubleHash).length

/-- Whether a line starts with `'-'`. -/
def startsWithDash : List Char → Bool
  | '-' :: _ => true
  | _ => false

/-- Match count of the bullet regex (pattern `^\-` with the `g` and `m`
flags): one match per line starting with `'-'`. -/
def countBullets (l : List Char) : ℕ := ((splitLines l).filter startsWithDash).length

/-- The lazy tail `.*?\*\*` of the bold regex: scan for the next `"**"`,
failing at a line terminator (`.` does not match one) or at the end.
Returns the remainder after the closing `"**"`. -/
def findBoldClose : List Char → Option (List Char)
  | [] => none
  | [_] => none
  | c1 :: c2 :: rest =>
    if c1 = '*' && c2 = '*' then some rest
    else if lineTerm c1 then none else findBoldClose (c2 :: rest)

theorem findBoldClose_length {l r : List Char} (h : findBoldClose l = some r) :
    r.length + 2 ≤ l.length := by
  induction l with
  | nil => simp [findBoldClose] at h
  | cons c cs ih =>
    match cs, ih with
    | [], _ => simp [findBoldClose] at h
    | c2 :: rest, ih =>
      rw [findBoldClose] at h
      split at h
      · cases h; simp
      · split at h
        · cases h
        · have := ih h
          simpa using Nat.le_succ_of_le this

/-- Match count of `/\*\*.*?\*\*/g`: at each position try to open with
`"**"` and close lazily; on success continue after the match, on failure
advance one character. -/
def countBold (l : List Char) : ℕ :=
  match l with
  | c1 :: c2 :: rest =>
    if c1 = '*' && c2 = '*' then
      match h : findBoldClose rest with
      | some rem => 1 + countBold rem
      | none => countBold (c2 :: rest)
    else countBold (c2 :: rest)
  | _ => 0
  termination_by l.length
  decreasing_by
  · have := findBoldClose_length h
    simp only [List.length_cons]
    omega
  · simp
  · simp

/-- The lazy tail `[\s\S]*?\}` of the brace regex: the next `'\x7d'` (any
characters, including line terminators, may precede it). -/
def findCloseBrace : List Char → Option (List Char)
  | [] => none
  | c :: cs => if c = '\x7d' then some cs else findCloseBrace cs

theorem findCloseBrace_length {l r : List Char} (h : findCloseBrace l = some r) :
    r.length + 1 ≤ l.length := by
  induction l with
  | nil => simp [findCloseBrace] at h
  | cons c cs ih =>
    rw [findCloseBrace] at h
    split at h
    · cases h; simp
    · have := ih h
      simpa using Nat.le_succ_of_le this

/-- Match count of `/\{[\s\S]*?\}/g`: at each `'\x7b'` take the lazily
nearest `'\x7d'`; continue after the match, or advance on failure. -/
def countBraces (l : List Char) : ℕ :=
  match l with
  | c :: rest =>
    if c = '\x7b' then
      match h : findCloseBrace rest with
      | some rem => 1 + countBraces rem
      | none => countBraces rest
    else countBraces rest
  | [] => 0
  termination_by l.length
  decreasing_by
  · have := findCloseBrace_length h
    simp only [List.length_cons]
    omega
  · simp
  · simp

/-- The lazy tail `.*?\]` of the bracket regex: the next `']'`, failing at
a line terminator since `.` does not match one. -/
def findCloseBracket : List Char → Option (List Char)
  | [] => none
  | c :: cs =>
    if c = ']' then some cs else if lineTerm c then none else findCloseBracket cs

theorem findCloseBracket_length {l r : List Char} (h : findCloseBracket l = some r) :
    r.length + 1 ≤ l.length := by
  induction l with
  | nil => simp [findCloseBracket] at h
  | cons c cs ih =>
    rw [findCloseBracket] at h
    split at h
    · cases h; simp
    · split at h
      · cases h
      · have := ih h
        simpa using Nat.le_succ_of_le this

/-- Match count of `/\[.*?\]/g`. -/
def countBrackets (l : List Char) : ℕ :=
  match l with
  | c :: rest =>
    if c = '[' then
      match h : findCloseBracket rest with
      | some rem => 1 + countBrackets rem
      | none => countBrackets rest
    else countBrackets rest
  | [] => 0
  termination_by l.length
  decreasing_by
  · have := findCloseBracket_length h
    simp only [List.length_cons]
    omega
  · simp
  · simp

/-- Case-insensitive literal match of a (lower-case) pattern at the head
of the text, as performed by the regex `i` flag. -/
def ciStartsWith : List Char → List Char → Bool
  | [], _ => true
  | _ :: _, [] => false
  | p :: ps, c :: cs => if jsToLower c = p then ciStartsWith ps cs else false

/-- First alternative of the word alternation matching at the head of the
text, returning its length (alternatives are tried left to right). -/
def ciMatchLen (ws : List (List Char)) (l : List Char) : Option ℕ :=
  ws.findSome? (fun w => if ciStartsWith w l then some w.length else none)

/-- Match count of a case-insensitive word alternation such as
`/Extract|Analyze|Identify/gi`: scan left to right, on a match skip the
matched word, otherwise advance one character. -/
def countWordsCI (ws : List (List Char)) (l : List Char) : ℕ :=
  match l with
  | [] => 0
  | c :: rest =>
    match ciMatchLen ws (c :: rest) with
    | some n => 1 + countWordsCI ws (List.drop (n - 1) rest)
    | none => countWordsCI ws rest
  termination_by l.length
  decreasing_by
  · simp only [List.length_cons, List.length_drop]
    omega
  · simp

/-- The alternatives of `/Extract|Analyze|Identify/gi` (lower-cased; the
`i` flag makes matching case-insensitive). -/
def verbWords : List (List Char) := ["extract".data, "analyze".data, "identify".data]

/-- The alternatives of `/Format|Structure|Template/gi`. -/
def formatKeywords : List (List Char) := ["format".data, "structure".data, "template".data]

/-- Match count of `/Extract|Analyze|Identify/gi`. -/
def countVerbs (l : List Char) : ℕ := countWordsCI verbWords l

/-- Match count of `/Format|Structure|Template/gi`. -/
def countFormatWords (l : List Char) : ℕ := countWordsCI formatKeywords l

/-- The `formatPatterns` array: the seven per-category match counters, in
source order. -/
def formatPatterns : List (List Char → ℕ) :=
  [countBold, countHeaders, countBullets, countBraces, countBrackets,
   countVerbs, countFormatWords]

/-- The per-category contribution of the `forEach` body: if the larger
match count is positive, `1 - |m1 - m2| / max`; otherwise `1`. -/
def categoryScore (m1 m2 : ℕ) : ℚ :=
  if 0 < max m1 m2 then 1 - |(m1 : ℚ) - (m2 : ℚ)| / ((max m1 m2 : ℕ) : ℚ) else 1

/-- The length-ratio term `min(l1, l2) / max(l1, l2)` (for two empty
prompts this is `0/0`, which exact rational division sends to `0`; the
aggregator never reaches that case because it short-circuits on empty
inputs). -/
def lengthRatio (p1 p2 : String) : ℚ :=
  ((min p1.length p2.length : ℕ) : ℚ) / ((max p1.length p2.length : ℕ) : ℚ)

/-- The source's `calculateStructuralSimilarity`: the seven category
contributions plus the length ratio, divided by the number of checks. -/
def calculateStructuralSimilarity (p1 p2 : String) : ℚ :=
  let categoryScores := formatPatterns.map (fun m => categoryScore (m p1.data) (m p2.data))
  let structuralScore := categoryScores.sum + lengthRatio p1 p2
  let totalChecks := formatPatterns.length + 1
  if totalChecks = 0 then 0 else structuralScore / (totalChecks : ℚ)

/-- JS `Math.round`: round to the nearest integer, halves toward `+∞`. -/
noncomputable def jsRound (x : ℝ) : ℤ := ⌊x + 1 / 2⌋

/-- The source's `createSimilarityScoreBetweenPrompts`: return `0` when
either prompt is falsy (the empty string), otherwise the weighted
combination `0.3·jaccard + 0.4·cosine + 0.3·structural` rounded to three
decimal places. -/
noncomputable def createSimilarityScoreBetweenPrompts (prompt1 prompt2 : String) : ℝ :=
  if prompt1 = "" ∨ prompt2 = "" then 0
  else
    let normalizedPrompt1 := normalizePrompt prompt1
    let normalizedPrompt2 := normalizePrompt prompt2
    let jaccardSimilarity := calculateJaccardSimilarity normalizedPrompt1 normalizedPrompt2
    let cosineSimilarity := calculateCosineSimilarity normalizedPrompt1 normalizedPrompt2
    let structuralSimilarity := calculateStructuralSimilarity prompt1 prompt2
    let finalScore : ℝ := (jaccardSimilarity : ℝ) * 0.3 + cosineSimilarity * 0.4 +
      (structuralSimilarity : ℝ) * 0.3
    (jsRound (finalScore * 1000) : ℝ) / 1000

/-!
Auxiliary definitions used to state and prove the claims: a direct
whitespace-run tokenizer (proved below to agree with the source's
collapse-trim-split chain), named components of the cosine computation
mirroring its local bindings, and the spec-side normalizer and category
score built from the claims' wording.
-/

/-- Maximal whitespace-free runs of a character list; `cur` is the
(reversed) run being accumulated. -/
def tokAux : List Char → List Char → List (List Char)
  | cur, [] => if cur = [] then [] else [cur.reverse]
  | cur, c :: cs =>
    if jsIsSpace c then
      if cur = [] then tokAux [] cs else cur.reverse :: tokAux [] cs
    else tokAux (c :: cur) cs

/-- Maximal whitespace-free runs of a character list. -/
def tokens (l : List Char) : List (List Char) := tokAux [] l

/-- The lower-case-then-replace preprocessing of `normalizePrompt`. -/
def prepData (l : List Char) : List Char := (l.map jsToLower).map jsReplaceChar

/-- The `allWords` binding of the cosine metric: distinct tokens of
either sequence. -/
def vocabulary (words1 words2 : List String) : List String := (words1 ++ words2).dedup

/-- The term-frequency vector of a sequence, indexed by a vocabulary. -/
def termFrequencyVector (vocab ws : List String) : List ℕ :=
  vocab.map (fun word => wordCount ws word)

/-- The `dotProduct` binding of the cosine metric. -/
def dotProductOf (v1 v2 : List ℕ) : ℕ := (List.zipWith (fun a b => a * b) v1 v2).sum

/-- The `magnitude` bindings of the cosine metric: Euclidean norm of a
count vector. -/
noncomputable def magnitudeOf (v : List ℕ) : ℝ :=
  Real.sqrt (((v.map (fun x => x * x)).sum : ℕ) : ℝ)

/-- The keep-class in the wording of the normalization claim: letters,
digits and whitespace. -/
def specKeepChar (c : Char) : Bool := c.isAlpha || c.isDigit || jsIsSpace c

/-- The amended keep-class: letters, digits, underscore and whitespace. -/
def specKeepCharAmended (c : Char) : Bool := c.isAlpha || c.isDigit || c = '_' || jsIsSpace c

/-- The claim's normalizer, parameterized by the keep-class: lower-case,
replace every character outside the keep-class with a space, split on
whitespace (collapsing runs and trimming is exactly splitting into
maximal whitespace-free runs), drop tokens of length at most two and
stop words. -/
def specNormalizeWith (keep : Char → Bool) (s : String) : List String :=
  ((((tokens ((s.data.map jsToLower).map (fun c => if keep c then c else ' '))).map
      (fun w => String.mk w)).filter (fun w => decide (2 < w.length))).filter
    (fun w => !isStopWord w))

/-- The normalizer as described by the claim (underscore is replaced). -/
def specNormalize (s : String) : List String := specNormalizeWith specKeepChar s

/-- The normalizer as amended (underscore is kept, as the source's `\w`
regex class does). -/
def specNormalizeAmended (s : String) : List String := specNormalizeWith specKeepCharAmended s

/-- The per-category sub-score in the claim's wording: `1` if the larger
match count is zero, `1 - |m1 - m2| / max` otherwise. -/
def specCategoryScore (m1 m2 : ℕ) : ℚ :=
  if max m1 m2 = 0 then 1 else 1 - |(m1 : ℚ) - (m2 : ℚ)| / ((max m1 m2 : ℕ) : ℚ)

/-!
Tokenizer characterization.  The chain `collapse whitespace → trim →
split on a single space → drop the short words` computes exactly the
maximal whitespace-free runs of the string (the one artefact of JS
`split(' ')`, an empty fragment for an all-whitespace string, has length
`0` and is removed by the length filter).  `tokAux` computes those runs
directly; the lemmas below prove the two routes equal.
-/

theorem splitAux_filter_ne_nil (l : List Char) (cur : List Char)
    (h : ∀ c ∈ l, jsIsSpace c = true → c = ' ') :
    (splitAux cur l).filter (fun w => decide (w ≠ [])) = tokAux cur l := by
  induction l generalizing cur with
  | nil =>
    simp only [splitAux, tokAux, List.filter_cons, List.filter_nil]
    rcases Classical.em (cur = []) with hc | hc
    · subst hc; simp
    · simp [hc, List.reverse_eq_nil_iff]
  | cons c cs ih =>
    have hcs : ∀ x ∈ cs, jsIsSpace x = true → x = ' ' := fun x hx => h x (List.mem_cons_of_mem _ hx)
    rcases Classical.em (c = ' ') with hc | hc
    · subst hc
      have hsp : jsIsSpace ' ' = true := by decide
      simp only [splitAux, if_pos rfl, tokAux, if_pos hsp, eq_self_iff_true, if_true,
        List.filter_cons]
      have ihx := ih [] hcs
      rcases Classical.em (cur = []) with hcur | hcur
      · subst hcur
        simpa using ihx
      · rw [if_pos (show decide (cur.reverse ≠ []) = true by
          simp [List.reverse_eq_nil_iff, hcur]), ihx, if_neg hcur]
    · have hnsp : jsIsSpace c = false := by
        rcases Bool.eq_false_or_eq_true (jsIsSpace c) with hb | hb
        · exact absurd (h c (List.mem_cons_self _ _) hb) hc
        · exact hb
      simp only [splitAux, if_neg hc, tokAux, hnsp, Bool.false_eq_true, if_false]
      exact ih (c :: cur) hcs

theorem mem_collapseAux_space {c : Char} :
    ∀ {b : Bool} {l : List Char}, c ∈ collapseAux b l → jsIsSpace c = true → c = ' '
  | _, [], h, _ => by simp [collapseAux] at h
  | b, d :: ds, h, hsp => by
    rw [collapseAux] at h
    split at h
    · split at h
      · exact mem_collapseAux_space h hsp
      · rcases List.mem_cons.1 h with rfl | h
        · rfl
        · exact mem_collapseAux_space h hsp
    · rcases List.mem_cons.1 h with rfl | h
      · simp_all
      · exact mem_collapseAux_space h hsp

theorem mem_jsTrim {c : Char} {l : List Char} (h : c ∈ jsTrim l) : c ∈ l := by
  unfold jsTrim at h
  rw [List.mem_reverse] at h
  have h1 := (List.dropWhile_sublist _).mem h
  rw [List.mem_reverse] at h1
  exact (List.dropWhile_sublist _).mem h1

theorem tokAux_collapseAux :
    ∀ (l : List Char) (b : Bool) (cur : List Char), (b = true → cur = []) →
      tokAux cur (collapseAux b l) = tokAux cur l
  | [], _, _, _ => rfl
  | c :: cs, b, cur, hb => by
    rcases Bool.eq_false_or_eq_true (jsIsSpace c) with hsp | hsp
    · rcases Bool.eq_false_or_eq_true b with hbt | hbf
      · have hcur := hb hbt
        subst hcur; subst hbt
        rw [collapseAux, if_pos hsp]
        simp only [if_pos rfl]
        rw [tokAux, if_pos hsp, if_pos rfl]
        exact tokAux_collapseAux cs true [] (fun _ => rfl)
      · subst hbf
        rw [collapseAux, if_pos hsp]
        simp only [Bool.false_eq_true, if_false]
        rw [tokAux, if_pos (by decide), tokAux, if_pos hsp]
        have ht := tokAux_collapseAux cs true [] (fun _ => rfl)
        rcases Classical.em (cur = []) with hcur | hcur
        · simp only [if_pos hcur]; exact ht
        · simp only [if_neg hcur]; rw [ht]
    · rw [collapseAux, if_neg (by simp [hsp])]
      rw [tokAux, if_neg (by simp [hsp]), tokAux, if_neg (by simp [hsp])]
      exact tokAux_collapseAux cs false (c :: cur) (by simp)

theorem tokAux_dropWhile (l : List Char) :
    tokAux [] (l.dropWhile jsIsSpace) = tokAux [] l := by
  induction l with
  | nil => rfl
  | cons c cs ih =>
    rcases Bool.eq_false_or_eq_true (jsIsSpace c) with hsp | hsp
    · rw [List.dropWhile_cons_of_pos hsp, ih, tokAux, if_pos hsp, if_pos rfl]
    · rw [List.dropWhile_cons_of_neg (by simp [hsp])]

theorem tokAux_all_space (s : List Char) (cur : List Char)
    (h : ∀ c ∈ s, jsIsSpace c = true) : tokAux cur s = tokAux cur [] := by
  induction s generalizing cur with
  | nil => rfl
  | cons c cs ih =>
    have hsp := h c (List.mem_cons_self _ _)
    have hcs : ∀ x ∈ cs, jsIsSpace x = true := fun x hx => h x (List.mem_cons_of_mem _ hx)
    have h0 : tokAux ([] : List Char) cs = [] := by
      rw [ih [] hcs]; rfl
    simp [tokAux, if_pos hsp, h0]

theorem tokAux_append_space_run (l s : List Char) (cur : List Char)
    (h : ∀ c ∈ s, jsIsSpace c = true) : tokAux cur (l ++ s) = tokAux cur l := by
  induction l generalizing cur with
  | nil => simpa using tokAux_all_space s cur h
  | cons c cs ih =>
    have harr : (c :: cs) ++ s = c :: (cs ++ s) := rfl
    rw [harr]
    rcases Bool.eq_false_or_eq_true (jsIsSpace c) with hsp | hsp
    · rw [tokAux, if_pos hsp, tokAux, if_pos hsp, ih []]
    · have hnsp : ¬jsIsSpace c = true := by rw [hsp]; exact Bool.false_ne_true
      rw [tokAux, if_neg hnsp, tokAux, if_neg hnsp]
      exact ih (c :: cur)

theorem tokAux_jsTrim (l : List Char) : tokAux [] (jsTrim l) = tokAux [] l := by
  unfold jsTrim
  set m := l.dropWhile jsIsSpace with hm
  have hsplit : m = ((m.reverse.dropWhile jsIsSpace).reverse) ++
      ((m.reverse.takeWhile jsIsSpace).reverse) := by
    have h1 : m.reverse.takeWhile jsIsSpace ++ m.reverse.dropWhile jsIsSpace = m.reverse :=
      List.takeWhile_append_dropWhile jsIsSpace m.reverse
    have h2 := congrArg List.reverse h1
    rw [List.reverse_append, List.reverse_reverse] at h2
    exact h2.symm
  have hsp : ∀ c ∈ (m.reverse.takeWhile jsIsSpace).reverse, jsIsSpace c = true := by
    intro c hc
    rw [List.mem_reverse] at hc
    exact List.mem_takeWhile_imp hc
  calc tokAux [] (m.reverse.dropWhile jsIsSpace).reverse
      = tokAux [] ((m.reverse.dropWhile jsIsSpace).reverse ++
          (m.reverse.takeWhile jsIsSpace).reverse) :=
        (tokAux_append_space_run _ _ [] hsp).symm
    _ = tokAux [] m := by rw [← hsplit]
    _ = tokAux [] l := tokAux_dropWhile l

theorem map_mk_filter_len (S : List (List Char)) :
    ((S.map (fun w => String.mk w)).filter (fun w => decide (2 < w.length))) =
      ((S.filter (fun w => decide (2 < w.length))).map (fun w => String.mk w)) := by
  induction S with
  | nil => rfl
  | cons w ws ih =>
    simp only [List.map_cons, List.filter_cons]
    have hlen : (String.mk w).length = w.length := rfl
    rcases Classical.em (2 < w.length) with hw | hw
    · simp [hlen, hw, ih]
    · simp [hlen, hw, ih]

theorem filter_len_filter_ne_nil (S : List (List Char)) :
    (S.filter (fun w => decide (w ≠ []))).filter (fun w => decide (2 < w.length)) =
      S.filter (fun w => decide (2 < w.length)) := by
  rw [List.filter_filter]
  apply List.filter_congr
  intro w _
  rcases Classical.em (2 < w.length) with hw | hw
  · have : w ≠ [] := by
      intro hnil; subst hnil; simp at hw
    simp [hw, this]
  · simp [hw]

/-- The pipeline of `normalizePrompt` computes the whitespace-run tokens
of the preprocessed string, filtered by length and stop-word status. -/
theorem normalizeData_eq_tokens (l : List Char) :
    normalizeData l =
      (((tokens (prepData l)).map (fun w => String.mk w)).filter
          (fun w => decide (2 < w.length))).filter (fun w => !isStopWord w) := by
  unfold normalizeData tokens prepData
  set X := (l.map jsToLower).map jsReplaceChar with hX
  have hsp : ∀ c ∈ jsTrim (collapseAux false X), jsIsSpace c = true → c = ' ' := by
    intro c hc
    exact mem_collapseAux_space (mem_jsTrim hc)
  rw [map_mk_filter_len, ← filter_len_filter_ne_nil,
    splitAux_filter_ne_nil _ [] hsp, tokAux_jsTrim,
    tokAux_collapseAux X false [] (by simp), ← map_mk_filter_len]

theorem prepData_append_space (a b : List Char) :
    prepData (a ++ ' ' :: b) = prepData a ++ ' ' :: prepData b := by
  unfold prepData
  simp [List.map_append]
  rfl

theorem tokAux_append_space (u v : List Char) :
    ∀ cur, tokAux cur (u ++ ' ' :: v) = tokAux cur u ++ tokAux [] v := by
  induction u with
  | nil =>
    intro cur
    have hsp : jsIsSpace ' ' = true := by decide
    simp only [List.nil_append, tokAux, if_pos hsp]
    rcases Classical.em (cur = []) with hcur | hcur
    · simp [hcur]
    · simp [hcur]
  | cons c cs ih =>
    intro cur
    have harr : (c :: cs) ++ ' ' :: v = c :: (cs ++ ' ' :: v) := rfl
    rw [harr]
    rcases Bool.eq_false_or_eq_true (jsIsSpace c) with hsp | hsp
    · rw [tokAux, if_pos hsp, tokAux, if_pos hsp, ih []]
      rcases Classical.em (cur = []) with hcur | hcur
      · simp [hcur]
      · simp [hcur]
    · have hnsp : ¬jsIsSpace c = true := by rw [hsp]; exact Bool.false_ne_true
      rw [tokAux, if_neg hnsp, tokAux, if_neg hnsp]
      exact ih (c :: cur)

/-- Inserting a whitespace-delimited fragment does not interact with the
surrounding tokens: normalization distributes over a space-separated
concatenation. -/
theorem normalizeData_append_space (a b : List Char) :
    normalizeData (a ++ ' ' :: b) = normalizeData a ++ normalizeData b := by
  rw [normalizeData_eq_tokens, normalizeData_eq_tokens a, normalizeData_eq_tokens b,
    prepData_append_space]
  unfold tokens
  rw [tokAux_append_space]
  simp [List.filter_append]

/-- String-level form of `normalizeData_append_space`. -/
theorem normalizePrompt_append_space (p q : String) :
    normalizePrompt (p ++ " " ++ q) = normalizePrompt p ++ normalizePrompt q := by
  unfold normalizePrompt
  have hdata : (p ++ " " ++ q).data = p.data ++ ' ' :: q.data := by
    simp [String.data_append]
  rw [hdata]
  exact normalizeData_append_space p.data q.data

/-! Lemmas about the Jaccard metric. -/

theorem string_ne_empty_data {s : String} (h : s ≠ "") : s.data ≠ [] := by
  intro hd
  apply h
  cases s with
  | mk d =>
    have hd' : d = [] := hd
    subst hd'
    rfl

theorem jaccard_union_eq_nil_iff (w1 w2 : List String) :
    (w1.dedup ++ w2.dedup).dedup = [] ↔ w1 = [] ∧ w2 = [] := by
  rw [List.dedup_eq_nil, List.append_eq_nil, List.dedup_eq_nil, List.dedup_eq_nil]

theorem calculateJaccardSimilarity_bounds (w1 w2 : List String) :
    0 ≤ calculateJaccardSimilarity w1 w2 ∧ calculateJaccardSimilarity w1 w2 ≤ 1 := by
  unfold calculateJaccardSimilarity
  rcases Classical.em ((w1.dedup ++ w2.dedup).dedup.length = 0) with h | h
  · simp [h]
  · simp only [h, if_false, if_neg h]
    have hpos : (0 : ℚ) < ((w1.dedup ++ w2.dedup).dedup.length : ℚ) := by
      have := Nat.pos_of_ne_zero h
      exact_mod_cast this
    have hcard : ((w1.dedup.filter (fun w => w2.dedup.contains w)).dedup).length ≤
        (w1.dedup ++ w2.dedup).dedup.length := by
      have hIn : ((w1.dedup.filter (fun w => w2.dedup.contains w)).dedup).Nodup :=
        List.nodup_dedup _
      have hUn : ((w1.dedup ++ w2.dedup).dedup).Nodup := List.nodup_dedup _
      have hsub : ((w1.dedup.filter (fun w => w2.dedup.contains w)).dedup).toFinset ⊆
          ((w1.dedup ++ w2.dedup).dedup).toFinset := by
        intro x hx
        rw [List.mem_toFinset] at hx
        rw [List.mem_toFinset]
        rw [List.mem_dedup] at hx ⊢
        have hx1 : x ∈ w1.dedup := (List.mem_filter.1 hx).1
        exact List.mem_append_left _ hx1
      calc ((w1.dedup.filter (fun w => w2.dedup.contains w)).dedup).length
          = ((w1.dedup.filter (fun w => w2.dedup.contains w)).dedup).toFinset.card :=
            (List.toFinset_card_of_nodup hIn).symm
        _ ≤ ((w1.dedup ++ w2.dedup).dedup).toFinset.card := Finset.card_le_card hsub
        _ = ((w1.dedup ++ w2.dedup).dedup).length := List.toFinset_card_of_nodup hUn
    constructor
    · positivity
    · rw [div_le_one hpos]
      exact_mod_cast hcard

theorem calculateJaccardSimilarity_self {n : List String} (h : n ≠ []) :
    calculateJaccardSimilarity n n = 1 := by
  simp only [calculateJaccardSimilarity]
  have hfil : n.dedup.filter (fun w => n.dedup.contains w) = n.dedup := by
    rw [List.filter_eq_self]
    intro a ha
    rw [List.contains_iff_exists_mem_beq]
    exact ⟨a, ha, by simp⟩
  have hinter : (n.dedup.filter (fun w => n.dedup.contains w)).dedup = n.dedup := by
    rw [hfil]
    exact (List.nodup_dedup n).dedup
  have hlen : ((n.dedup ++ n.dedup).dedup).length = n.dedup.length := by
    have hnod : ((n.dedup ++ n.dedup).dedup).Nodup := List.nodup_dedup _
    have htf : ((n.dedup ++ n.dedup).dedup).toFinset = n.dedup.toFinset := by
      apply Finset.ext
      intro a
      rw [List.mem_toFinset, List.mem_toFinset, List.mem_dedup, List.mem_append]
      tauto
    calc ((n.dedup ++ n.dedup).dedup).length
        = ((n.dedup ++ n.dedup).dedup).toFinset.card := (List.toFinset_card_of_nodup hnod).symm
      _ = n.dedup.toFinset.card := by rw [htf]
      _ = n.dedup.length := List.toFinset_card_of_nodup (List.nodup_dedup n)
  have hne : n.dedup.length ≠ 0 := by
    rw [Ne, List.length_eq_zero, List.dedup_eq_nil]
    exact h
  rw [hinter, hlen, if_neg hne, div_self (by exact_mod_cast hne)]

/-! Lemmas about the structural metric. -/

theorem categoryScore_self (m : ℕ) : categoryScore m m = 1 := by
  unfold categoryScore
  rcases Classical.em (0 < max m m) with h | h
  · rw [if_pos h]
    simp
  · rw [if_neg h]

theorem abs_sub_le_cast_max (m1 m2 : ℕ) : |(m1 : ℚ) - (m2 : ℚ)| ≤ ((max m1 m2 : ℕ) : ℚ) := by
  rcases le_total m1 m2 with h | h
  · have hc : (m1 : ℚ) ≤ (m2 : ℚ) := by exact_mod_cast h
    rw [abs_of_nonpos (sub_nonpos.mpr hc), neg_sub, Nat.max_eq_right h]
    have h0 : (0 : ℚ) ≤ (m1 : ℚ) := by positivity
    linarith
  · have hc : (m2 : ℚ) ≤ (m1 : ℚ) := by exact_mod_cast h
    rw [abs_of_nonneg (sub_nonneg.mpr hc), Nat.max_eq_left h]
    have h0 : (0 : ℚ) ≤ (m2 : ℚ) := by positivity
    linarith

theorem categoryScore_bounds (m1 m2 : ℕ) :
    0 ≤ categoryScore m1 m2 ∧ categoryScore m1 m2 ≤ 1 := by
  unfold categoryScore
  rcases Classical.em (0 < max m1 m2) with h | h
  · rw [if_pos h]
    have hpos : (0 : ℚ) < ((max m1 m2 : ℕ) : ℚ) := by exact_mod_cast h
    have hle := abs_sub_le_cast_max m1 m2
    have h1 : |(m1 : ℚ) - (m2 : ℚ)| / ((max m1 m2 : ℕ) : ℚ) ≤ 1 := by
      rw [div_le_one hpos]; exact hle
    have h0 : 0 ≤ |(m1 : ℚ) - (m2 : ℚ)| / ((max m1 m2 : ℕ) : ℚ) := by positivity
    constructor <;> linarith
  · rw [if_neg h]
    norm_num

theorem lengthRatio_bounds (p1 p2 : String) :
    0 ≤ lengthRatio p1 p2 ∧ lengthRatio p1 p2 ≤ 1 := by
  unfold lengthRatio
  rcases Classical.em (max p1.length p2.length = 0) with h | h
  · obtain ⟨h1, h2⟩ := Nat.max_eq_zero_iff.1 h
    rw [h1, h2]
    norm_num
  · have hpos : (0 : ℚ) < ((max p1.length p2.length : ℕ) : ℚ) := by
      exact_mod_cast Nat.pos_of_ne_zero h
    constructor
    · positivity
    · rw [div_le_one hpos]
      exact_mod_cast min_le_max

theorem lengthRatio_self {p : String} (h : p ≠ "") : lengthRatio p p = 1 := by
  have hd := string_ne_empty_data h
  unfold lengthRatio
  have hlen : p.length ≠ 0 := by
    cases p with
    | mk d =>
      intro h0
      exact hd (List.length_eq_zero.mp h0)
  rw [min_self, max_self, div_self (by exact_mod_cast hlen)]

theorem calculateStructuralSimilarity_bounds (p1 p2 : String) :
    0 ≤ calculateStructuralSimilarity p1 p2 ∧ calculateStructuralSimilarity p1 p2 ≤ 1 := by
  simp only [calculateStructuralSimilarity]
  set terms := formatPatterns.map (fun m => categoryScore (m p1.data) (m p2.data)) with hterms
  have hlen : terms.length = 7 := by rw [hterms, List.length_map]; rfl
  have hnn : 0 ≤ terms.sum := by
    apply List.sum_nonneg
    intro x hx
    rw [hterms] at hx
    obtain ⟨m, _, rfl⟩ := List.mem_map.1 hx
    exact (categoryScore_bounds _ _).1
  have hub : terms.sum ≤ 7 := by
    have hb := List.sum_le_card_nsmul terms 1 (by
      intro x hx
      rw [hterms] at hx
      obtain ⟨m, _, rfl⟩ := List.mem_map.1 hx
      exact (categoryScore_bounds _ _).2)
    rw [hlen] at hb
    simpa using hb
  have hr := lengthRatio_bounds p1 p2
  have h8 : formatPatterns.length + 1 = 8 := rfl
  rw [h8, if_neg (by norm_num)]
  constructor
  · apply div_nonneg _ (by norm_num)
    exact add_nonneg hnn hr.1
  · rw [div_le_one (by norm_num)]
    have : ((8 : ℕ) : ℚ) = 8 := by norm_num
    rw [this]
    linarith [hr.2]

theorem calculateStructuralSimilarity_self {p : String} (h : p ≠ "") :
    calculateStructuralSimilarity p p = 1 := by
  simp only [calculateStructuralSimilarity]
  have hmap : formatPatterns.map (fun m => categoryScore (m p.data) (m p.data)) =
      formatPatterns.map (fun _ => (1 : ℚ)) := by
    apply List.map_congr_left
    intro m _
    exact categoryScore_self _
  rw [hmap, lengthRatio_self h]
  norm_num [formatPatterns, List.sum_cons, List.sum_nil]

/-! Rounding. -/

theorem jsRound_div_1000_bounds {x : ℝ} (h0 : 0 ≤ x) (h1 : x ≤ 1) :
    0 ≤ (jsRound (x * 1000) : ℝ) / 1000 ∧ (jsRound (x * 1000) : ℝ) / 1000 ≤ 1 := by
  unfold jsRound
  have hlow : (0 : ℤ) ≤ ⌊x * 1000 + 1 / 2⌋ := by
    rw [Int.le_floor]
    push_cast
    nlinarith
  have hhigh : ⌊x * 1000 + 1 / 2⌋ ≤ 1000 := by
    rw [Int.floor_le_iff]
    push_cast
    nlinarith
  constructor
  · positivity
  · rw [div_le_one (by norm_num)]
    exact_mod_cast hhigh

/-! Lemmas about the cosine metric, stated through the named components
`vocabulary`, `termFrequencyVector`, `dotProductOf` and `magnitudeOf`
that mirror its local bindings. -/

open scoped Classical in
theorem calculateCosineSimilarity_eq (w1 w2 : List String) :
    calculateCosineSimilarity w1 w2 =
      if magnitudeOf (termFrequencyVector (vocabulary w1 w2) w1) = 0 ∨
          magnitudeOf (termFrequencyVector (vocabulary w1 w2) w2) = 0 then 0
      else ((dotProductOf (termFrequencyVector (vocabulary w1 w2) w1)
              (termFrequencyVector (vocabulary w1 w2) w2) : ℕ) : ℝ) /
          (magnitudeOf (termFrequencyVector (vocabulary w1 w2) w1) *
            magnitudeOf (termFrequencyVector (vocabulary w1 w2) w2)) := rfl

theorem cast_sum_map_toFinset (A : List String) (c : String → ℕ) (hA : A.Nodup) :
    (((A.map c).sum : ℕ) : ℝ) = ∑ w ∈ A.toFinset, (c w : ℝ) := by
  rw [Nat.cast_list_sum, List.map_map, List.sum_toFinset _ hA]
  rfl

theorem dotProductOf_map (A : List String) (c1 c2 : String → ℕ) :
    dotProductOf (A.map c1) (A.map c2) = (A.map (fun w => c1 w * c2 w)).sum := by
  rw [dotProductOf, List.zipWith_map, List.zipWith_same]

theorem magnitudeOf_map (A : List String) (c : String → ℕ) :
    magnitudeOf (A.map c) = Real.sqrt (((A.map (fun w => c w * c w)).sum : ℕ) : ℝ) := by
  rw [magnitudeOf, List.map_map]
  rfl

theorem dotProductOf_le_mul_magnitude {A : List String} (hA : A.Nodup)
    (w1 w2 : List String) :
    ((dotProductOf (termFrequencyVector A w1) (termFrequencyVector A w2) : ℕ) : ℝ) ≤
      magnitudeOf (termFrequencyVector A w1) * magnitudeOf (termFrequencyVector A w2) := by
  unfold termFrequencyVector
  set c1 : String → ℕ := fun word => wordCount w1 word with hc1
  set c2 : String → ℕ := fun word => wordCount w2 word with hc2
  rw [dotProductOf_map, magnitudeOf_map, magnitudeOf_map]
  rw [cast_sum_map_toFinset _ _ hA, cast_sum_map_toFinset _ _ hA,
    cast_sum_map_toFinset _ _ hA]
  have hcast1 : ∀ w ∈ A.toFinset, ((c1 w * c1 w : ℕ) : ℝ) = (c1 w : ℝ) ^ 2 := by
    intro w _; push_cast; ring
  have hcast2 : ∀ w ∈ A.toFinset, ((c2 w * c2 w : ℕ) : ℝ) = (c2 w : ℝ) ^ 2 := by
    intro w _; push_cast; ring
  have hcastd : ∀ w ∈ A.toFinset, ((c1 w * c2 w : ℕ) : ℝ) = (c1 w : ℝ) * (c2 w : ℝ) := by
    intro w _; push_cast; ring
  rw [Finset.sum_congr rfl hcast1, Finset.sum_congr rfl hcast2,
    Finset.sum_congr rfl hcastd]
  exact Real.sum_mul_le_sqrt_mul_sqrt A.toFinset (fun w => (c1 w : ℝ)) (fun w => (c2 w : ℝ))

theorem calculateCosineSimilarity_bounds (w1 w2 : List String) :
    0 ≤ calculateCosineSimilarity w1 w2 ∧ calculateCosineSimilarity w1 w2 ≤ 1 := by
  rw [calculateCosineSimilarity_eq]
  set m1 := magnitudeOf (termFrequencyVector (vocabulary w1 w2) w1) with hm1
  set m2 := magnitudeOf (termFrequencyVector (vocabulary w1 w2) w2) with hm2
  rcases Classical.em (m1 = 0 ∨ m2 = 0) with h | h
  · rw [if_pos h]
    norm_num
  · rw [if_neg h]
    push_neg at h
    have h1 : 0 < m1 := lt_of_le_of_ne (by rw [hm1]; exact Real.sqrt_nonneg _) (Ne.symm h.1)
    have h2 : 0 < m2 := lt_of_le_of_ne (by rw [hm2]; exact Real.sqrt_nonneg _) (Ne.symm h.2)
    constructor
    · exact div_nonneg (Nat.cast_nonneg _) (mul_pos h1 h2).le
    · rw [div_le_one (mul_pos h1 h2)]
      exact dotProductOf_le_mul_magnitude (List.nodup_dedup _) w1 w2

theorem calculateCosineSimilarity_self {n : List String} (h : n ≠ []) :
    calculateCosineSimilarity n n = 1 := by
  rw [calculateCosineSimilarity_eq]
  set v := termFrequencyVector (vocabulary n n) n with hv
  set S := (v.map (fun x => x * x)).sum with hS
  have hdot : dotProductOf v v = S := by
    rw [dotProductOf, List.zipWith_same, hS]
  have hmag : magnitudeOf v = Real.sqrt ((S : ℕ) : ℝ) := rfl
  have hSne : S ≠ 0 := by
    obtain ⟨w, t, rfl⟩ := List.exists_cons_of_ne_nil h
    have hwA : w ∈ vocabulary (w :: t) (w :: t) := by
      rw [vocabulary, List.mem_dedup]
      exact List.mem_append_left _ (List.mem_cons_self _ _)
    have hc : 1 ≤ wordCount (w :: t) w := by
      rw [wordCount]
      have hwf : w ∈ (w :: t).filter (fun x => x == w) := by
        rw [List.mem_filter]
        exact ⟨List.mem_cons_self _ _, by simp⟩
      exact List.length_pos.mpr (List.ne_nil_of_mem hwf)
    have hmemv : wordCount (w :: t) w ∈ v := by
      rw [hv, termFrequencyVector]
      exact List.mem_map_of_mem _ hwA
    have hmemsq : wordCount (w :: t) w * wordCount (w :: t) w ∈ v.map (fun x => x * x) :=
      List.mem_map_of_mem _ hmemv
    have hle : wordCount (w :: t) w * wordCount (w :: t) w ≤ S := by
      rw [hS]
      exact List.le_sum_of_mem hmemsq
    have : 1 ≤ S := le_trans (Nat.one_le_iff_ne_zero.mpr (by positivity)) hle
    omega
  have hSpos : (0 : ℝ) < ((S : ℕ) : ℝ) := by exact_mod_cast Nat.pos_of_ne_zero hSne
  have hmagne : magnitudeOf v ≠ 0 := by
    rw [hmag]
    exact Real.sqrt_ne_zero'.mpr hSpos
  rw [if_neg (by push_neg; exact ⟨hmagne, hmagne⟩), hdot, hmag,
    Real.mul_self_sqrt (Nat.cast_nonneg S)]
  exact div_self (ne_of_gt hSpos)

theorem calculateCosineSimilarity_nil : calculateCosineSimilarity [] [] = 0 := by
  rw [calculateCosineSimilarity_eq]
  have hmag : magnitudeOf (termFrequencyVector (vocabulary [] []) []) = 0 := by
    rw [vocabulary, termFrequencyVector]
    simp [magnitudeOf]
  rw [if_pos (Or.inl hmag)]

/-! Aggregator-level lemmas. -/

theorem score_empty {p1 p2 : String} (h : p1 = "" ∨ p2 = "") :
    createSimilarityScoreBetweenPrompts p1 p2 = 0 := by
  simp only [createSimilarityScoreBetweenPrompts]
  rw [if_pos h]

theorem score_eq_of_ne_empty {p1 p2 : String} (h1 : p1 ≠ "") (h2 : p2 ≠ "") :
    createSimilarityScoreBetweenPrompts p1 p2 =
      (jsRound ((((calculateJaccardSimilarity (normalizePrompt p1) (normalizePrompt p2) : ℚ) : ℝ) * 0.3 +
          calculateCosineSimilarity (normalizePrompt p1) (normalizePrompt p2) * 0.4 +
          ((calculateStructuralSimilarity p1 p2 : ℚ) : ℝ) * 0.3) * 1000) : ℝ) / 1000 := by
  simp only [createSimilarityScoreBetweenPrompts]
  rw [if_neg (by push_neg; exact ⟨h1, h2⟩)]

theorem weighted_sum_bounds (p1 p2 : String) :
    0 ≤ ((calculateJaccardSimilarity (normalizePrompt p1) (normalizePrompt p2) : ℚ) : ℝ) * 0.3 +
        calculateCosineSimilarity (normalizePrompt p1) (normalizePrompt p2) * 0.4 +
        ((calculateStructuralSimilarity p1 p2 : ℚ) : ℝ) * 0.3 ∧
      ((calculateJaccardSimilarity (normalizePrompt p1) (normalizePrompt p2) : ℚ) : ℝ) * 0.3 +
        calculateCosineSimilarity (normalizePrompt p1) (normalizePrompt p2) * 0.4 +
        ((calculateStructuralSimilarity p1 p2 : ℚ) : ℝ) * 0.3 ≤ 1 := by
  obtain ⟨hj0, hj1⟩ := calculateJaccardSimilarity_bounds (normalizePrompt p1) (normalizePrompt p2)
  obtain ⟨hc0, hc1⟩ := calculateCosineSimilarity_bounds (normalizePrompt p1) (normalizePrompt p2)
  obtain ⟨hs0, hs1⟩ := calculateStructuralSimilarity_bounds p1 p2
  have hj0r : (0 : ℝ) ≤ ((calculateJaccardSimilarity (normalizePrompt p1) (normalizePrompt p2) : ℚ) : ℝ) := by
    exact_mod_cast hj0
  have hj1r : ((calculateJaccardSimilarity (normalizePrompt p1) (normalizePrompt p2) : ℚ) : ℝ) ≤ 1 := by
    exact_mod_cast hj1
  have hs0r : (0 : ℝ) ≤ ((calculateStructuralSimilarity p1 p2 : ℚ) : ℝ) := by exact_mod_cast hs0
  have hs1r : ((calculateStructuralSimilarity p1 p2 : ℚ) : ℝ) ≤ 1 := by exact_mod_cast hs1
  constructor <;> nlinarith

theorem jsRound_scaled_int_bounds {x : ℝ} (h0 : 0 ≤ x) (h1 : x ≤ 1) :
    0 ≤ jsRound (x * 1000) ∧ jsRound (x * 1000) ≤ 1000 := by
  unfold jsRound
  constructor
  · rw [Int.le_floor]
    push_cast
    nlinarith
  · rw [Int.floor_le_iff]
    push_cast
    nlinarith

/-! Lemmas for stop-word insensitivity. -/

theorem stopWords_normalizePrompt : ∀ w ∈ stopWordsList, normalizePrompt w = [] := by
  decide

theorem tokAux_token_length :
    ∀ (l cur : List Char), ∀ t ∈ tokAux cur l, t.length ≤ cur.length + l.length
  | [], cur, t, ht => by
    rw [tokAux] at ht
    rcases Classical.em (cur = []) with hc | hc
    · rw [if_pos hc] at ht
      simp at ht
    · rw [if_neg hc] at ht
      rcases List.mem_singleton.1 ht with rfl
      simp
  | c :: cs, cur, t, ht => by
    rw [tokAux] at ht
    rcases Bool.eq_false_or_eq_true (jsIsSpace c) with hsp | hsp
    · rw [if_pos hsp] at ht
      rcases Classical.em (cur = []) with hc | hc
      · rw [if_pos hc] at ht
        have := tokAux_token_length cs [] t ht
        simp only [List.length_nil, List.length_cons] at this ⊢
        omega
      · rw [if_neg hc] at ht
        rcases List.mem_cons.1 ht with rfl | ht
        · simp only [List.length_reverse, List.length_cons]
          omega
        · have := tokAux_token_length cs [] t ht
          simp only [List.length_nil, List.length_cons] at this ⊢
          omega
    · rw [if_neg (by rw [hsp]; exact Bool.false_ne_true)] at ht
      have := tokAux_token_length cs (c :: cur) t ht
      simp only [List.length_cons] at this ⊢
      omega

theorem normalizePrompt_of_length_le_two {w : String} (h : w.length ≤ 2) :
    normalizePrompt w = [] := by
  cases w with
  | mk d =>
    have hd : d.length ≤ 2 := h
    rw [normalizePrompt]
    show normalizeData d = []
    rw [normalizeData_eq_tokens]
    have hfilter : ((tokens (prepData d)).map (fun w => String.mk w)).filter
        (fun w => decide (2 < w.length)) = [] := by
      rw [List.filter_eq_nil_iff]
      intro a ha
      obtain ⟨t, ht, rfl⟩ := List.mem_map.1 ha
      have hlen : t.length ≤ (prepData d).length := by
        have := tokAux_token_length (prepData d) [] t ht
        simpa using this
      have hprep : (prepData d).length = d.length := by
        rw [prepData, List.length_map, List.length_map]
      simp only [decide_eq_true_eq]
      have : (String.mk t).length = t.length := rfl
      omega
    rw [hfilter]
    rfl

theorem normalizePrompt_insert_irrelevant {w : String}
    (h : w ∈ stopWordsList ∨ w.length ≤ 2) (pre suf : String) :
    normalizePrompt (pre ++ " " ++ w ++ " " ++ suf) =
      normalizePrompt (pre ++ " " ++ suf) := by
  have hw : normalizePrompt w = [] := by
    rcases h with h | h
    · exact stopWords_normalizePrompt w h
    · exact normalizePrompt_of_length_le_two h
  have hassoc : pre ++ " " ++ w ++ " " ++ suf = pre ++ " " ++ (w ++ " " ++ suf) := by
    simp [String.append_assoc]
  rw [hassoc, normalizePrompt_append_space, normalizePrompt_append_space,
    normalizePrompt_append_space, hw]
  simp

theorem categoryScore_eq_spec (m1 m2 : ℕ) : categoryScore m1 m2 = specCategoryScore m1 m2 := by
  unfold categoryScore specCategoryScore
  rcases Nat.eq_zero_or_pos (max m1 m2) with h | h
  · rw [if_neg (by omega), if_pos h]
  · rw [if_pos h, if_neg (by omega)]

/-! The claims. -/

/-- C1: for every pair of strings `a` and `b`, the public entry point
`createSimilarityScoreBetweenPrompts a b` returns a score `s` with
`0 ≤ s ≤ 1`. -/
theorem claim_C1_score_range (p1 p2 : String) :
    0 ≤ createSimilarityScoreBetweenPrompts p1 p2 ∧
      createSimilarityScoreBetweenPrompts p1 p2 ≤ 1 := by
  rcases Classical.em (p1 = "" ∨ p2 = "") with h | h
  · rw [score_empty h]
    norm_num
  · push_neg at h
    rw [score_eq_of_ne_empty h.1 h.2]
    obtain ⟨hlo, hhi⟩ := weighted_sum_bounds p1 p2
    obtain ⟨hl, hh⟩ := jsRound_scaled_int_bounds hlo hhi
    constructor
    · apply div_nonneg _ (by norm_num)
      exact_mod_cast hl
    · rw [div_le_one (by norm_num)]
      exact_mod_cast hh

/-- C2 (counterexample): the claim states that any string that is
non-empty after trimming scores `1.0` against itself; but `"ab"` is
non-empty after trimming and scores `0.3` against itself (its
normalization is empty, so the Jaccard and cosine sub-scores are `0`). -/
theorem claim_C2_counterexample :
    jsTrim "ab".data ≠ [] ∧ createSimilarityScoreBetweenPrompts "ab" "ab" = 0.3 ∧
      createSimilarityScoreBetweenPrompts "ab" "ab" ≠ 1 := by
  have h1 : ("ab" : String) ≠ "" := by decide
  have hn : normalizePrompt "ab" = [] := by decide
  have hval : createSimilarityScoreBetweenPrompts "ab" "ab" = 0.3 := by
    have heq := score_eq_of_ne_empty h1 h1
    rw [hn] at heq
    rw [heq, (by decide : calculateJaccardSimilarity [] [] = 0),
      calculateCosineSimilarity_nil, calculateStructuralSimilarity_self h1]
    push_cast
    norm_num [jsRound]
  refine ⟨by decide, hval, ?_⟩
  rw [hval]
  norm_num

/-- C2 (amended): `createSimilarityScoreBetweenPrompts a a = 1` whenever
the normalization of `a` is non-empty (non-emptiness after trimming is not
sufficient, as the counterexample shows). -/
theorem claim_C2_amended (a : String) (h : normalizePrompt a ≠ []) :
    createSimilarityScoreBetweenPrompts a a = 1 := by
  have ha : a ≠ "" := by
    intro he
    subst he
    exact h (by decide)
  rw [score_eq_of_ne_empty ha ha, calculateJaccardSimilarity_self h,
    calculateCosineSimilarity_self h, calculateStructuralSimilarity_self ha]
  push_cast
  norm_num [jsRound]

theorem claim_C2_amended_witness :
    normalizePrompt "hello" ≠ [] ∧ createSimilarityScoreBetweenPrompts "hello" "hello" = 1 :=
  ⟨by decide, claim_C2_amended "hello" (by decide)⟩

/-- C3: an empty string on either side yields `0` (the aggregator
short-circuits before normalization or any metric). -/
theorem claim_C3_empty_input_zero (x : String) :
    createSimilarityScoreBetweenPrompts "" x = 0 ∧
      createSimilarityScoreBetweenPrompts x "" = 0 ∧
      createSimilarityScoreBetweenPrompts "" "" = 0 :=
  ⟨score_empty (Or.inl rfl), score_empty (Or.inr rfl), score_empty (Or.inl rfl)⟩

/-- C4: for non-empty inputs the score is
`0.3·jaccard + 0.4·cosine + 0.3·structural` with the sub-scores
unrounded, rounded to three decimals as `round(score·1000)/1000` (JS
`Math.round`, which on these non-negative values rounds halves away from
zero), hence an integer multiple of `1/1000` in `[0, 1]`. -/
theorem claim_C4_weighted_rounding (p1 p2 : String) (h1 : p1 ≠ "") (h2 : p2 ≠ "") :
    createSimilarityScoreBetweenPrompts p1 p2 =
      (jsRound ((((calculateJaccardSimilarity (normalizePrompt p1) (normalizePrompt p2) : ℚ) : ℝ) * 0.3 +
          calculateCosineSimilarity (normalizePrompt p1) (normalizePrompt p2) * 0.4 +
          ((calculateStructuralSimilarity p1 p2 : ℚ) : ℝ) * 0.3) * 1000) : ℝ) / 1000 ∧
      ∃ n : ℤ, 0 ≤ n ∧ n ≤ 1000 ∧
        createSimilarityScoreBetweenPrompts p1 p2 = (n : ℝ) / 1000 := by
  have heq := score_eq_of_ne_empty h1 h2
  refine ⟨heq, ?_⟩
  obtain ⟨hlo, hhi⟩ := weighted_sum_bounds p1 p2
  obtain ⟨hl, hh⟩ := jsRound_scaled_int_bounds hlo hhi
  exact ⟨_, hl, hh, heq⟩

theorem claim_C4_witness :
    ("hello" : String) ≠ "" ∧ ("world" : String) ≠ "" ∧
      ∃ n : ℤ, 0 ≤ n ∧ n ≤ 1000 ∧
        createSimilarityScoreBetweenPrompts "hello" "world" = (n : ℝ) / 1000 :=
  ⟨by decide, by decide,
    (claim_C4_weighted_rounding "hello" "world" (by decide) (by decide)).2⟩

/-- C5 (counterexample): the claim says every character that is not a
letter, digit, or whitespace is replaced by a space, but the source keeps
underscores (the `\w` class): on `"a_b"` the claimed normalizer yields
`[]` while the source normalizer yields `["a_b"]`. -/
theorem claim_C5_counterexample :
    normalizePrompt "a_b" = ["a_b"] ∧ specNormalize "a_b" = [] := by
  constructor <;> decide

/-- C5 (amended): the normalizer equals the claimed pipeline once the
keep-class also contains the underscore: lower-case, replace every
character that is not a letter, digit, underscore or whitespace by a
space, split on whitespace (collapse and trim), drop tokens of length at
most two, drop stop words. -/
theorem claim_C5_amended (s : String) : normalizePrompt s = specNormalizeAmended s := by
  rw [normalizePrompt, normalizeData_eq_tokens, specNormalizeAmended, specNormalizeWith]
  have hkeep : (fun c : Char => if specKeepCharAmended c then c else ' ') = jsReplaceChar := by
    funext c
    rw [specKeepCharAmended, jsReplaceChar, jsIsWordChar]
  rw [hkeep]
  rfl

/-- C6: the structural score is the arithmetic mean of eight terms: one
sub-score per pattern category (`1` when both match counts are zero,
`1 - |m1 - m2| / max` otherwise) plus the length-ratio term. -/
theorem claim_C6_structural_mean (p1 p2 : String) :
    calculateStructuralSimilarity p1 p2 =
      (specCategoryScore (countBold p1.data) (countBold p2.data) +
        specCategoryScore (countHeaders p1.data) (countHeaders p2.data) +
        specCategoryScore (countBullets p1.data) (countBullets p2.data) +
        specCategoryScore (countBraces p1.data) (countBraces p2.data) +
        specCategoryScore (countBrackets p1.data) (countBrackets p2.data) +
        specCategoryScore (countVerbs p1.data) (countVerbs p2.data) +
        specCategoryScore (countFormatWords p1.data) (countFormatWords p2.data) +
        lengthRatio p1 p2) / 8 := by
  simp only [calculateStructuralSimilarity, formatPatterns, List.map_cons, List.map_nil,
    List.sum_cons, List.sum_nil, List.length_cons, List.length_nil, categoryScore_eq_spec]
  norm_num
  ring

open scoped Classical in
/-- C7: the cosine metric returns the dot product over the product of the
magnitudes of the two term-frequency vectors over the shared vocabulary,
returns `0` whenever either magnitude is zero (no division by zero), and
its value lies in `[0, 1]`. -/
theorem claim_C7_cosine_safe (w1 w2 : List String) :
    calculateCosineSimilarity w1 w2 =
      (if magnitudeOf (termFrequencyVector (vocabulary w1 w2) w1) = 0 ∨
          magnitudeOf (termFrequencyVector (vocabulary w1 w2) w2) = 0 then 0
        else ((dotProductOf (termFrequencyVector (vocabulary w1 w2) w1)
                (termFrequencyVector (vocabulary w1 w2) w2) : ℕ) : ℝ) /
            (magnitudeOf (termFrequencyVector (vocabulary w1 w2) w1) *
              magnitudeOf (termFrequencyVector (vocabulary w1 w2) w2))) ∧
      0 ≤ calculateCosineSimilarity w1 w2 ∧ calculateCosineSimilarity w1 w2 ≤ 1 :=
  ⟨calculateCosineSimilarity_eq w1 w2, calculateCosineSimilarity_bounds w1 w2⟩

/-- C8: the Jaccard metric deduplicates both sequences and returns
intersection size over union size, a value in `[0, 1]`; the union is
empty exactly when both sequences are empty, and in that case (guarded by
the `union.size === 0` test) the result is `0`. -/
theorem claim_C8_jaccard (w1 w2 : List String) :
    calculateJaccardSimilarity w1 w2 =
      (if ((w1.dedup ++ w2.dedup).dedup).length = 0 then 0
        else (((w1.dedup.filter (fun w => w2.dedup.contains w)).dedup).length : ℚ) /
          (((w1.dedup ++ w2.dedup).dedup).length : ℚ)) ∧
      0 ≤ calculateJaccardSimilarity w1 w2 ∧ calculateJaccardSimilarity w1 w2 ≤ 1 ∧
      ((w1.dedup ++ w2.dedup).dedup = [] ↔ w1 = [] ∧ w2 = []) ∧
      calculateJaccardSimilarity [] [] = 0 :=
  ⟨rfl, (calculateJaccardSimilarity_bounds w1 w2).1,
    (calculateJaccardSimilarity_bounds w1 w2).2,
    jaccard_union_eq_nil_iff w1 w2, by decide⟩

/-- C9: inserting (equivalently, removing) a whitespace-delimited stop
word or a token of length at most two into a prompt changes neither the
Jaccard nor the cosine sub-score against any second prompt. -/
theorem claim_C9_stopword_insensitive (pre suf w q : String)
    (h : w ∈ stopWordsList ∨ w.length ≤ 2) :
    calculateJaccardSimilarity (normalizePrompt (pre ++ " " ++ w ++ " " ++ suf))
        (normalizePrompt q) =
      calculateJaccardSimilarity (normalizePrompt (pre ++ " " ++ suf)) (normalizePrompt q) ∧
    calculateCosineSimilarity (normalizePrompt (pre ++ " " ++ w ++ " " ++ suf))
        (normalizePrompt q) =
      calculateCosineSimilarity (normalizePrompt (pre ++ " " ++ suf)) (normalizePrompt q) := by
  rw [normalizePrompt_insert_irrelevant h pre suf]
  exact ⟨rfl, rfl⟩

theorem claim_C9_witness :
    (("the" : String) ∈ stopWordsList ∨ ("the" : String).length ≤ 2) ∧
      (calculateJaccardSimilarity (normalizePrompt ("big" ++ " " ++ "the" ++ " " ++ "cat"))
          (normalizePrompt "dog") =
        calculateJaccardSimilarity (normalizePrompt ("big" ++ " " ++ "cat"))
          (normalizePrompt "dog") ∧
      calculateCosineSimilarity (normalizePrompt ("big" ++ " " ++ "the" ++ " " ++ "cat"))
          (normalizePrompt "dog") =
        calculateCosineSimilarity (normalizePrompt ("big" ++ " " ++ "cat"))
          (normalizePrompt "dog")) :=
  ⟨Or.inl (by decide),
    claim_C9_stopword_insensitive "big" "cat" "the" "dog" (Or.inl (by decide))⟩

/-- C10: a non-empty string whose normalization is empty scores exactly
`0.3` against itself: Jaccard and cosine are `0` by their empty guards
while the structural score of a string against itself is `1`. -/
theorem claim_C10_empty_normalization (s : String) (h1 : s ≠ "")
    (h2 : normalizePrompt s = []) :
    createSimilarityScoreBetweenPrompts s s = 0.3 ∧
      calculateJaccardSimilarity (normalizePrompt s) (normalizePrompt s) = 0 ∧
      calculateCosineSimilarity (normalizePrompt s) (normalizePrompt s) = 0 ∧
      calculateStructuralSimilarity s s = 1 := by
  have heq := score_eq_of_ne_empty h1 h1
  rw [h2] at heq
  have hval : createSimilarityScoreBetweenPrompts s s = 0.3 := by
    rw [heq, (by decide : calculateJaccardSimilarity [] [] = 0),
      calculateCosineSimilarity_nil, calculateStructuralSimilarity_self h1]
    push_cast
    norm_num [jsRound]
  refine ⟨hval, ?_, ?_, calculateStructuralSimilarity_self h1⟩
  · rw [h2]
    decide
  · rw [h2]
    exact calculateCosineSimilarity_nil

theorem claim_C10_witness :
    ("a b" : String) ≠ "" ∧ normalizePrompt "a b" = [] ∧
      createSimilarityScoreBetweenPrompts "a b" "a b" = 0.3 :=
  ⟨by decide, by decide,
    (claim_C10_empty_normalization "a b" (by decide) (by decide)).1⟩

end MicroModel
